import Mathlib

/-!
Shallow embedding of `src/python/mic_stream_socketio.py`.

The program bridges a microphone/speaker pair with a socket.io relay using
two bounded FIFO queues (`send_q`, capacity 128; `play_q`, capacity 256),
a capture callback, a receiver event handler, a network sender loop and a
playback callback.  Queues are modelled as Lean lists (head = front of the
FIFO), numpy int16 values as `Int` together with explicit reduction modulo
2^16, Python float samples as `ℚ`, byte strings as `List Nat` (each < 256)
and text as `List Char`.  `try ... except` blocks around whole callback
bodies are modelled with `Except`-valued bodies plus an explicit handler
wrapper, and `put_nowait` guarded by `except queue.Full: pass` is modelled
by `put_nowait_drop`.
-/

set_option linter.unusedVariables false

/-- Capacity of the outbound queue: `send_q = queue.Queue(maxsize=128)`. -/
def SEND_Q_MAX : Nat := 128

/-- Capacity of the playback queue: `play_q = queue.Queue(maxsize=256)`. -/
def PLAY_Q_MAX : Nat := 256

/-- Model of `q.put_nowait(x)` wrapped in `try ... except queue.Full: pass`
(or `... print` and continue): if the queue is below capacity the item is
appended at the tail, otherwise the item is discarded and the queue is
returned unchanged.  The `queue.Full` exception never escapes this pattern,
which is why the model is a total function. -/
def put_nowait_drop {α : Type} (cap : Nat) (q : List α) (x : α) : List α :=
  if q.length < cap then q ++ [x] else q

/-- Reduction of an integer to the signed 16-bit range, value mod 2^16
interpreted as a signed int16.  This is what a C-style cast to `np.int16`
computes on an in-range or out-of-range integer. -/
def wrap16 (n : Int) : Int := (n + 32768) % 65536 - 32768

/-- Model of `np.clip(x, -1.0, 1.0)` on an ideal (rational) sample value:
`np.clip(a, lo, hi) = minimum(maximum(a, lo), hi)`. -/
def clipQ (x : ℚ) : ℚ := min 1 (max (-1) x)

/-- Truncation toward zero of a rational value, as performed when a float
is cast to an integer dtype. -/
def truncQ (x : ℚ) : Int := if 0 ≤ x then ⌊x⌋ else ⌈x⌉

/-- Per-sample action of the floating branch of `audio_capture_callback`:
`np.clip(indata, -1.0, 1.0)` followed by `(arr * 32767).astype(np.int16)`. -/
def normFloatSample (x : ℚ) : Int := wrap16 (truncQ (clipQ x * 32767))

/-- Dtype cases distinguished by `audio_capture_callback` for the input
block: floating point, already `int16`, or some other integer width. -/
inductive InData where
  | floats (xs : List ℚ)
  | int16s (xs : List Int)
  | otherInts (xs : List Int)
  deriving DecidableEq

/-- Normalization step of `audio_capture_callback` (lines 99-106): floats
are clipped, scaled by 32767 and cast to int16; other integer widths are
cast with `astype(np.int16)`; int16 input passes through unchanged. -/
def normalize_to_int16 : InData → List Int
  | InData.floats xs => xs.map normFloatSample
  | InData.int16s xs => xs
  | InData.otherInts xs => xs.map wrap16

/-- Little-endian byte pair of one int16 sample, as laid out by
`int16.tobytes()`. -/
def int16le (s : Int) : List Nat :=
  [((s % 65536).toNat) % 256, ((s % 65536).toNat) / 256]

/-- Model of `int16.tobytes()`: concatenated little-endian byte pairs. -/
def int16ToBytes (xs : List Int) : List Nat := (xs.map int16le).flatten

/-- Model of `np.frombuffer(raw, dtype=np.int16)`: consecutive little-endian
byte pairs become signed int16 samples; `none` models the `ValueError`
raised when the buffer size is not a multiple of the 2-byte item size. -/
def bytesToInt16 : List Nat → Option (List Int)
  | [] => some []
  | lo :: hi :: rest =>
    match bytesToInt16 rest with
    | some t => some (wrap16 (lo + 256 * hi) :: t)
    | none => none
  | [_] => none

/-- Standard base64 alphabet used by `base64.b64encode`. -/
def b64Table : List Char :=
  "ABCDEFGHIJKLMNOPQRSTUVWXYZabcdefghijklmnopqrstuvwxyz0123456789+/".toList

/-- Alphabet character of a 6-bit group. -/
def encChar (n : Nat) : Char := b64Table.getD n 'A'

/-- Inverse alphabet lookup; `none` for a character outside the alphabet. -/
def decCharOpt (c : Char) : Option Nat :=
  if b64Table.indexOf c < 64 then some (b64Table.indexOf c) else none

/-- Model of `base64.b64encode`: each 3-byte group becomes 4 alphabet
characters; a trailing group of 1 or 2 bytes is padded with `=`. -/
def b64encode : List Nat → List Char
  | [] => []
  | [a] => [encChar (a / 4), encChar (a % 4 * 16), '=', '=']
  | [a, b] => [encChar (a / 4), encChar (a % 4 * 16 + b / 16), encChar (b % 16 * 4), '=']
  | a :: b :: c :: rest =>
    encChar (a / 4) :: encChar (a % 4 * 16 + b / 16) ::
      encChar (b % 16 * 4 + c / 64) :: encChar (c % 64) :: b64encode rest

/-- Model of `base64.b64decode` on the receiver side: 4-character groups
are decoded to 3 bytes, a final padded group to 1 or 2 bytes; `none`
models the `binascii.Error` raised for malformed input (wrong length,
character outside the alphabet, or data after the padding). -/
def b64decodeOpt : List Char → Option (List Nat)
  | [] => some []
  | w :: x :: y :: z :: rest =>
    match decCharOpt w, decCharOpt x with
    | some dw, some dx =>
      if z = '=' then
        match rest with
        | [] =>
          if y = '=' then some [dw * 4 + dx / 16]
          else
            match decCharOpt y with
            | some dy => some [dw * 4 + dx / 16, dx % 16 * 16 + dy / 4]
            | none => none
        | _ => none
      else
        match decCharOpt y, decCharOpt z with
        | some dy, some dz =>
          match b64decodeOpt rest with
          | some tail =>
            some ((dw * 4 + dx / 16) :: (dx % 16 * 16 + dy / 4) :: (dy % 4 * 64 + dz) :: tail)
          | none => none
        | _, _ => none
    | _, _ => none
  | _ => none

/-- Wrapper modelling the `try ... except Exception` around the body of
`audio_capture_callback` (lines 98-115): on success the body's queue is
the new state, on any exception the error is swallowed (logged) and the
send queue is left as it was. -/
def capture_guarded (send_q : List (List Char))
    (body : List (List Char) → Except Unit (List (List Char))) : List (List Char) :=
  match body send_q with
  | Except.ok q2 => q2
  | Except.error _ => send_q

/-- Model of `audio_capture_callback` (lines 93-115) acting on the send
queue: when `is_muted` is set the function returns before touching the
queue; otherwise the block is normalized to int16, serialized to bytes,
base64-encoded and inserted with a non-blocking, drop-on-full put. -/
def audio_capture_callback (is_muted : Bool) (send_q : List (List Char))
    (indata : InData) : List (List Char) :=
  if is_muted then send_q
  else
    capture_guarded send_q (fun q =>
      Except.ok (put_nowait_drop SEND_Q_MAX q
        (b64encode (int16ToBytes (normalize_to_int16 indata)))))

/-- Inbound `audio-chunk` payload: a dict with optional `sender` and
`data` fields, or a bare base64 string (`payload` not a dict). -/
inductive Payload where
  | dict (sender : Option (List Char)) (data : Option (List Char))
  | str (s : List Char)
  deriving DecidableEq

/-- Model of the `on_audio_chunk` handler (lines 73-89) acting on the
playback queue: extract `data` (the bare payload when it is not a dict),
return unchanged on a falsy (`None` or empty) value, decode base64
(failure is caught by the outer `except` and leaves the queue unchanged),
reinterpret the bytes as int16 (`ValueError` likewise caught), and insert
with a non-blocking, drop-on-full put. -/
def on_audio_chunk (play_q : List (List Int)) (payload : Payload) : List (List Int) :=
  let data_b64 : Option (List Char) :=
    match payload with
    | Payload.dict _ d => d
    | Payload.str s => some s
  match data_b64 with
  | none => play_q
  | some s =>
    if s = [] then play_q
    else
      match b64decodeOpt s with
      | none => play_q
      | some raw =>
        match bytesToInt16 raw with
        | none => play_q
        | some arr => put_nowait_drop PLAY_Q_MAX play_q arr

/-- Slice assignment `out_buf[pos:pos+len(vals)] = vals` on a flat buffer. -/
def writeSeg (buf : List Int) (pos : Nat) (vals : List Int) : List Int :=
  buf.take pos ++ vals ++ buf.drop (pos + vals.length)

/-- Drain loop of the playback callback (lines 142-155): pop chunks until
`got = required` samples are copied or the queue is empty; a popped chunk
with leftover samples has its remainder re-inserted with `put_nowait`
(which appends at the tail and drops on overflow), after which the loop
condition `got < required` fails and the loop exits. -/
def playLoop (required : Nat) : List (List Int) → Nat → List Int → List Int × List (List Int)
  | [], _, outBuf => (outBuf, [])
  | chunk :: rest, got, outBuf =>
    if got < required then
      let toCopy := min chunk.length (required - got)
      let outBuf2 := writeSeg outBuf got (chunk.take toCopy)
      if toCopy < chunk.length then
        (outBuf2, put_nowait_drop PLAY_Q_MAX rest (chunk.drop toCopy))
      else
        playLoop required rest (got + toCopy) outBuf2
    else (outBuf, chunk :: rest)

/-- Wrapper modelling the `try ... except Exception` around the playback
callback body (lines 138-160): on success the body's buffer and queue are
returned, on any exception `outdata.fill(0)` makes the output all-zero. -/
def playback_callback_guarded (required : Nat)
    (body : List (List Int) → Except Unit (List Int × List (List Int)))
    (play_q : List (List Int)) : List Int × List (List Int) :=
  match body play_q with
  | Except.ok r => r
  | Except.error _ => (List.replicate required 0, play_q)

/-- Model of the playback `callback` inside `audio_playback_loop`
(lines 137-160): `required = frames * CHANNELS`, a zero-filled buffer of
that length is drained from the playback queue, and the whole body is
guarded so that an exception yields silence. -/
def audio_playback_callback (frames channels : Nat)
    (play_q : List (List Int)) : List Int × List (List Int) :=
  playback_callback_guarded (frames * channels)
    (fun q => Except.ok (playLoop (frames * channels) q 0
      (List.replicate (frames * channels) 0)))
    play_q

/-- Observable action of one sender-loop iteration that dequeued an item:
either a successful `sio.emit` of the item, or `time.sleep(0.1)` (100 ms)
after a failed emit. -/
inductive SenderAction where
  | emit (b64 : List Char)
  | sleepMs (n : Nat)
  deriving DecidableEq

/-- Model of `network_sender_loop` (lines 118-129) run for finitely many
iterations: one `Bool` per iteration tells whether `sio.emit` succeeded
for the item dequeued in that iteration.  An iteration on an empty queue
models the `queue.Empty` timeout and just continues; an iteration that
dequeues an item either emits it or, when the emit raises, logs and
sleeps 100 ms — in both cases the item is gone and is not re-inserted. -/
def network_sender_run : List Bool → List (List Char) → List (List Char) × List SenderAction
  | [], q => (q, [])
  | _ :: outs, [] => network_sender_run outs []
  | ok :: outs, x :: rest =>
    let r := network_sender_run outs rest
    (r.1, (if ok then SenderAction.emit x else SenderAction.sleepMs 100) :: r.2)

/-! ## Claim C5: mute short-circuits the capture callback -/

/-- C5: while the mute flag is set, `audio_capture_callback` returns
without inserting anything into the send queue, so the queue is unchanged
after any number of invocations. -/
theorem c5_mute_no_enqueue :
    (∀ (send_q : List (List Char)) (ind : InData),
      audio_capture_callback true send_q ind = send_q)
    ∧ (∀ (inds : List InData) (send_q : List (List Char)),
      inds.foldl (fun q ind => audio_capture_callback true q ind) send_q = send_q) := by
  constructor
  · intro q ind; rfl
  · intro inds
    induction inds with
    | nil => intro q; rfl
    | cons i is ih =>
      intro q
      rw [List.foldl_cons]
      exact ih q

/-! ## Claim C10: integer narrowing is modular, not saturating -/

/-- C10: an integer sample of another width is narrowed by
`astype(np.int16)`, i.e. reduced modulo 2^16 into the signed range; in
particular 40000 becomes -25536 rather than saturating to 32767. -/
theorem c10_modular_narrowing :
    (∀ xs : List Int, normalize_to_int16 (InData.otherInts xs) = xs.map wrap16)
    ∧ (∀ n : Int, (wrap16 n - n) % 65536 = 0 ∧ -32768 ≤ wrap16 n ∧ wrap16 n ≤ 32767)
    ∧ wrap16 40000 = -25536
    ∧ wrap16 40000 ≠ 32767 := by
  refine ⟨fun xs => rfl, fun n => ?_, by decide, by decide⟩
  unfold wrap16
  refine ⟨by omega, by omega, by omega⟩

/-! ## Claim C8: callback exceptions are caught -/

/-- C8: the playback callback's `try ... except` zeroes the entire output
buffer whenever the body raises, and otherwise returns the body's result;
the capture callback's `try ... except` swallows any exception and leaves
the send queue as it was.  In both cases no exception escapes: the guarded
callbacks are total functions. -/
theorem c8_exceptions_caught :
    (∀ (required : Nat)
      (body : List (List Int) → Except Unit (List Int × List (List Int)))
      (q : List (List Int)) (e : Unit),
      body q = Except.error e →
      playback_callback_guarded required body q = (List.replicate required 0, q))
    ∧ (∀ (body : List (List Char) → Except Unit (List (List Char)))
      (q : List (List Char)) (e : Unit),
      body q = Except.error e → capture_guarded q body = q)
    ∧ (∀ (required : Nat)
      (body : List (List Int) → Except Unit (List Int × List (List Int)))
      (q : List (List Int)) (r : List Int × List (List Int)),
      body q = Except.ok r → playback_callback_guarded required body q = r)
    ∧ (∀ (body : List (List Char) → Except Unit (List (List Char)))
      (q : List (List Char)) (r : List (List Char)),
      body q = Except.ok r → capture_guarded q body = r) := by
  refine ⟨?_, ?_, ?_, ?_⟩
  · intro required body q e h
    simp [playback_callback_guarded, h]
  · intro body q e h
    simp [capture_guarded, h]
  · intro required body q r h
    simp [playback_callback_guarded, h]
  · intro body q r h
    simp [capture_guarded, h]

/-- Witness for C8 at a concrete failing body and a concrete queue. -/
theorem c8_witness :
    ((fun _ : List (List Int) =>
        (Except.error () : Except Unit (List Int × List (List Int)))) [[3]]
      = Except.error ())
    ∧ playback_callback_guarded 2
        (fun _ => Except.error ()) [[3]] = (List.replicate 2 0, [[3]]) :=
  ⟨rfl, c8_exceptions_caught.1 2 (fun _ => Except.error ()) [[3]] () rfl⟩

/-! ## Claim C9: sender loop drops failed items and continues -/

/-- C9: over any finite run of the sender loop, items are consumed from
the queue in order regardless of emit failures — the remaining queue is
exactly the original queue with one item dropped per dequeuing iteration,
a successful iteration emits its item, a failed iteration sleeps 100 ms
instead, and a failed item is never re-inserted. -/
theorem c9_sender_loop_run :
    ∀ (outs : List Bool) (q : List (List Char)),
      network_sender_run outs q
        = (q.drop outs.length,
           (outs.zip q).map (fun p =>
             if p.1 then SenderAction.emit p.2 else SenderAction.sleepMs 100)) := by
  intro outs
  induction outs with
  | nil => intro q; simp [network_sender_run]
  | cons ok outs ih =>
    intro q
    cases q with
    | nil => simp [network_sender_run, ih]
    | cons x rest => simp [network_sender_run, ih]

/-! ## Claim C3: float normalization bounds and endpoints -/

/-- Clipped values lie in the closed interval from -1 to 1. -/
lemma clipQ_mem (x : ℚ) : -1 ≤ clipQ x ∧ clipQ x ≤ 1 := by
  unfold clipQ
  exact ⟨le_min (by norm_num) (le_max_left _ _), min_le_left _ _⟩

/-- Truncation toward zero stays within symmetric integer bounds. -/
lemma truncQ_bounds {b : Int} (x : ℚ) (hlo : -(b : ℚ) ≤ x) (hhi : x ≤ (b : ℚ)) :
    -b ≤ truncQ x ∧ truncQ x ≤ b := by
  unfold truncQ
  split_ifs with h
  · constructor
    · have h0 : (0 : Int) ≤ ⌊x⌋ := Int.floor_nonneg.mpr h
      have hb : (0 : ℚ) ≤ (b : ℚ) := le_trans h hhi
      have hb2 : (0 : Int) ≤ b := by exact_mod_cast hb
      omega
    · have hq : (⌊x⌋ : ℚ) ≤ (b : ℚ) := le_trans (Int.floor_le x) hhi
      exact_mod_cast hq
  · push_neg at h
    constructor
    · have hq : -(b : ℚ) ≤ (⌈x⌉ : ℚ) := le_trans hlo (Int.le_ceil x)
      exact_mod_cast hq
    · have h0 : ⌈x⌉ ≤ 0 := Int.ceil_le.mpr (by exact_mod_cast le_of_lt h)
      have hb : (0 : ℚ) < (b : ℚ) := by linarith [lt_of_le_of_lt hlo h]
      have hb2 : (0 : Int) < b := by exact_mod_cast hb
      omega

/-- Reduction modulo 2^16 is the identity on the signed 16-bit range. -/
lemma wrap16_eq_self {n : Int} (h1 : -32768 ≤ n) (h2 : n ≤ 32767) : wrap16 n = n := by
  unfold wrap16
  omega

/-- C3: the floating branch clamps each sample to the interval from -1.0
to 1.0 and scales by 32767 before the int16 cast, so every output lies in
the representable range, 1.0 maps to 32767 and -1.0 maps to -32767 (not
-32768); int16 input passes through unchanged. -/
theorem c3_normalization_range :
    (∀ x : ℚ, -32767 ≤ normFloatSample x ∧ normFloatSample x ≤ 32767)
    ∧ normFloatSample 1 = 32767
    ∧ normFloatSample (-1) = -32767
    ∧ (∀ xs : List ℚ, normalize_to_int16 (InData.floats xs) = xs.map normFloatSample)
    ∧ (∀ xs : List Int, normalize_to_int16 (InData.int16s xs) = xs) := by
  have hbound : ∀ x : ℚ,
      -32767 ≤ truncQ (clipQ x * 32767) ∧ truncQ (clipQ x * 32767) ≤ 32767 := by
    intro x
    have hc := clipQ_mem x
    refine truncQ_bounds (b := 32767) _ ?_ ?_
    · push_cast
      nlinarith [hc.1, hc.2]
    · push_cast
      nlinarith [hc.1, hc.2]
  refine ⟨?_, ?_, ?_, fun xs => rfl, fun xs => rfl⟩
  · intro x
    have h := hbound x
    unfold normFloatSample
    rw [wrap16_eq_self (by omega) (by omega)]
    exact h
  · have h1 : clipQ 1 = 1 := by
      unfold clipQ
      rw [max_eq_right (by norm_num : (-1 : ℚ) ≤ 1), min_self]
    have h2 : truncQ 32767 = 32767 := by
      unfold truncQ
      rw [if_pos (by norm_num)]
      rw [show (32767 : ℚ) = ((32767 : Int) : ℚ) by norm_num]
      exact Int.floor_intCast _
    unfold normFloatSample
    rw [h1, one_mul, h2]
    decide
  · have h1 : clipQ (-1) = -1 := by
      unfold clipQ
      rw [max_self, min_eq_right (by norm_num : (-1 : ℚ) ≤ 1)]
    have h2 : truncQ (-32767) = -32767 := by
      unfold truncQ
      rw [if_neg (by norm_num)]
      rw [show (-32767 : ℚ) = ((-32767 : Int) : ℚ) by norm_num]
      exact Int.ceil_intCast _
    unfold normFloatSample
    rw [h1, show ((-1 : ℚ) * 32767) = -32767 by norm_num, h2]
    decide

/-! ## Claim C4: bounded queues, non-blocking drop-on-full inserts -/

/-- A drop-on-full put never grows a queue beyond its capacity. -/
lemma put_nowait_drop_length {α : Type} (cap : Nat) (q : List α) (x : α)
    (h : q.length ≤ cap) : (put_nowait_drop cap q x).length ≤ cap := by
  unfold put_nowait_drop
  split_ifs with hlt
  · simp only [List.length_append, List.length_cons, List.length_nil]
    omega
  · exact h

/-- A drop-on-full put into a full queue leaves it unchanged. -/
lemma put_nowait_drop_full {α : Type} (cap : Nat) (q : List α) (x : α)
    (h : q.length = cap) : put_nowait_drop cap q x = q := by
  unfold put_nowait_drop
  rw [if_neg (by omega)]

/-- The playback drain loop never grows the queue beyond capacity. -/
lemma playLoop_snd_length (required : Nat) :
    ∀ (q : List (List Int)) (got : Nat) (outBuf : List Int),
      q.length ≤ PLAY_Q_MAX → ((playLoop required q got outBuf).2).length ≤ PLAY_Q_MAX := by
  intro q
  induction q with
  | nil =>
    intro got outBuf h
    simp [playLoop]
  | cons chunk rest ih =>
    intro got outBuf h
    simp only [List.length_cons] at h
    by_cases hlt : got < required
    · by_cases hcopy : min chunk.length (required - got) < chunk.length
      · simp only [playLoop, if_pos hlt, if_pos hcopy]
        exact put_nowait_drop_length _ _ _ (by omega)
      · simp only [playLoop, if_pos hlt, if_neg hcopy]
        exact ih _ _ (by omega)
    · simp only [playLoop, if_neg hlt, List.length_cons]
      omega

/-- The capture callback never grows the send queue beyond capacity. -/
lemma audio_capture_callback_length (m : Bool) (q : List (List Char)) (ind : InData)
    (h : q.length ≤ SEND_Q_MAX) : (audio_capture_callback m q ind).length ≤ SEND_Q_MAX := by
  unfold audio_capture_callback capture_guarded
  split_ifs with hm
  · exact h
  · exact put_nowait_drop_length _ _ _ h

/-- The receiver handler never grows the playback queue beyond capacity. -/
lemma on_audio_chunk_length (q : List (List Int)) (p : Payload)
    (h : q.length ≤ PLAY_Q_MAX) : (on_audio_chunk q p).length ≤ PLAY_Q_MAX := by
  unfold on_audio_chunk
  rcases p with ⟨snd, d⟩ | s
  · rcases d with _ | s
    · exact h
    · simp only
      split_ifs with h0
      · exact h
      · rcases hdec : b64decodeOpt s with _ | raw
        · simp only [hdec]
          exact h
        · simp only [hdec]
          rcases hb : bytesToInt16 raw with _ | arr
          · simp only [hb]
            exact h
          · simp only [hb]
            exact put_nowait_drop_length _ _ _ h
  · simp only
    split_ifs with h0
    · exact h
    · rcases hdec : b64decodeOpt s with _ | raw
      · simp only [hdec]
        exact h
      · simp only [hdec]
        rcases hb : bytesToInt16 raw with _ | arr
        · simp only [hb]
          exact h
        · simp only [hb]
          exact put_nowait_drop_length _ _ _ h

/-- C4: for both queues and every inserting call site — capture callback
into the send queue (capacity 128), receiver handler and playback
re-insert into the playback queue (capacity 256) — a put into a full
queue is a silent drop (no exception reaches the caller, the model is a
total function), and no sequence of operations pushes a queue past its
capacity. -/
theorem c4_bounded_queues :
    (∀ (α : Type) (cap : Nat) (q : List α) (x : α),
      q.length ≤ cap → (put_nowait_drop cap q x).length ≤ cap)
    ∧ (∀ (α : Type) (cap : Nat) (q : List α) (x : α),
      q.length = cap → put_nowait_drop cap q x = q)
    ∧ (∀ (m : Bool) (q : List (List Char)) (ind : InData),
      q.length ≤ SEND_Q_MAX → (audio_capture_callback m q ind).length ≤ SEND_Q_MAX)
    ∧ (∀ (q : List (List Int)) (p : Payload),
      q.length ≤ PLAY_Q_MAX → (on_audio_chunk q p).length ≤ PLAY_Q_MAX)
    ∧ (∀ (frames channels : Nat) (q : List (List Int)),
      q.length ≤ PLAY_Q_MAX →
        ((audio_playback_callback frames channels q).2).length ≤ PLAY_Q_MAX) :=
  ⟨fun _ cap q x h => put_nowait_drop_length cap q x h,
   fun _ cap q x h => put_nowait_drop_full cap q x h,
   fun m q ind h => audio_capture_callback_length m q ind h,
   fun q p h => on_audio_chunk_length q p h,
   fun frames channels q h => by
     unfold audio_playback_callback playback_callback_guarded
     exact playLoop_snd_length _ _ _ _ h⟩

/-- Witness for C4 at concrete inputs: a full two-slot queue rejects a
put unchanged, and a concrete capture call respects the send capacity. -/
theorem c4_witness :
    (([[1], [2]] : List (List Int)).length = 2
      ∧ put_nowait_drop 2 [[1], [2]] [3] = ([[1], [2]] : List (List Int)))
    ∧ (([] : List (List Char)).length ≤ SEND_Q_MAX
      ∧ (audio_capture_callback false [] (InData.int16s [1])).length ≤ SEND_Q_MAX) :=
  ⟨⟨by decide, c4_bounded_queues.2.1 (List Int) 2 [[1], [2]] [3] (by decide)⟩,
   ⟨by decide, c4_bounded_queues.2.2.1 false [] (InData.int16s [1]) (by decide)⟩⟩

/-! ## Claim C7: malformed inbound messages are no-ops -/

/-- C7: an inbound payload whose `data` is missing or empty, fails base64
decoding, or decodes to a byte count that is not a whole number of int16
samples, leaves the playback queue unchanged; every failure path is caught
inside the handler, which is a total function of the queue. -/
theorem c7_malformed_noop :
    ∀ (q : List (List Int)) (sender : Option (List Char)),
      on_audio_chunk q (Payload.dict sender none) = q
      ∧ on_audio_chunk q (Payload.dict sender (some [])) = q
      ∧ (∀ s : List Char, b64decodeOpt s = none →
          on_audio_chunk q (Payload.dict sender (some s)) = q)
      ∧ (∀ (s : List Char) (raw : List Nat), b64decodeOpt s = some raw →
          bytesToInt16 raw = none →
          on_audio_chunk q (Payload.dict sender (some s)) = q) := by
  intro q sender
  refine ⟨rfl, rfl, ?_, ?_⟩
  · intro s hs
    unfold on_audio_chunk
    simp only
    split_ifs with h0
    · rfl
    · simp only [hs]
  · intro s raw hs hraw
    unfold on_audio_chunk
    simp only
    split_ifs with h0
    · rfl
    · simp only [hs, hraw]

/-- Witness for C7: an undecodable one-character `data` field is dropped
without touching a concrete playback queue. -/
theorem c7_witness :
    b64decodeOpt ['A'] = none
    ∧ on_audio_chunk [[5]] (Payload.dict none (some ['A'])) = [[5]] :=
  ⟨by decide, (c7_malformed_noop [[5]] none).2.2.1 ['A'] (by decide)⟩

/-! ## Claim C6: base64 encode/decode round trip -/

/-- Decoding inverts the alphabet lookup on every 6-bit value. -/
lemma decCharOpt_encChar : ∀ n : Nat, n < 64 → decCharOpt (encChar n) = some n := by decide

/-- No alphabet character is the padding character. -/
lemma encChar_ne_pad : ∀ n : Nat, n < 64 → encChar n ≠ '=' := by decide

/-- C6: base64-encoding any byte sequence (as the capture callback does)
and then decoding it (as the receiver handler does) reproduces the exact
original bytes. -/
theorem c6_base64_roundtrip :
    ∀ (l : List Nat), (∀ b ∈ l, b < 256) → b64decodeOpt (b64encode l) = some l := by
  intro l
  induction l using b64encode.induct with
  | case1 => intro h; rfl
  | case2 a =>
    intro h
    have ha : a < 256 := h a (by simp)
    have h1 : a / 4 < 64 := by omega
    have h2 : a % 4 * 16 < 64 := by omega
    simp only [b64encode, b64decodeOpt, decCharOpt_encChar _ h1, decCharOpt_encChar _ h2,
      if_true, Option.some.injEq, List.cons.injEq, and_true]
    omega
  | case3 a b =>
    intro h
    have ha : a < 256 := h a (by simp)
    have hb : b < 256 := h b (by simp)
    have h1 : a / 4 < 64 := by omega
    have h2 : a % 4 * 16 + b / 16 < 64 := by omega
    have h3 : b % 16 * 4 < 64 := by omega
    have h3n := encChar_ne_pad _ h3
    simp only [b64encode, b64decodeOpt, decCharOpt_encChar _ h1, decCharOpt_encChar _ h2,
      decCharOpt_encChar _ h3, if_neg h3n, if_true, Option.some.injEq, List.cons.injEq,
      and_true]
    omega
  | case4 a b c rest ih =>
    intro h
    have ha : a < 256 := h a (by simp)
    have hb : b < 256 := h b (by simp)
    have hc : c < 256 := h c (by simp)
    have h1 : a / 4 < 64 := by omega
    have h2 : a % 4 * 16 + b / 16 < 64 := by omega
    have h3 : b % 16 * 4 + c / 64 < 64 := by omega
    have h4 : c % 64 < 64 := by omega
    have h4n := encChar_ne_pad _ h4
    have hrest : b64decodeOpt (b64encode rest) = some rest :=
      ih (fun v hv => h v (by simp [hv]))
    simp only [b64encode, b64decodeOpt, decCharOpt_encChar _ h1, decCharOpt_encChar _ h2,
      decCharOpt_encChar _ h3, decCharOpt_encChar _ h4, hrest, if_neg h4n, if_true,
      Option.some.injEq, List.cons.injEq, and_true]
    refine ⟨by omega, by omega, by omega⟩

/-- Witness for C6 on a concrete byte buffer. -/
theorem c6_witness :
    (∀ b ∈ [0, 77, 255, 3], b < 256)
    ∧ b64decodeOpt (b64encode [0, 77, 255, 3]) = some [0, 77, 255, 3] :=
  ⟨by decide, c6_base64_roundtrip [0, 77, 255, 3] (by decide)⟩

/-! ## Claims C1 and C2: the playback callback -/

/-- Writing an empty slice changes nothing. -/
lemma writeSeg_nil (buf : List Int) (pos : Nat) : writeSeg buf pos [] = buf := by
  simp [writeSeg]

/-- An in-bounds slice assignment preserves the buffer length. -/
lemma writeSeg_length (buf vals : List Int) (pos : Nat)
    (h : pos + vals.length ≤ buf.length) : (writeSeg buf pos vals).length = buf.length := by
  simp [writeSeg]
  omega

/-- Two consecutive slice assignments equal one assignment of the
concatenated slice. -/
lemma writeSeg_append (buf : List Int) (pos : Nat) (a b : List Int)
    (hpos : pos ≤ buf.length) :
    writeSeg (writeSeg buf pos a) (pos + a.length) b = writeSeg buf pos (a ++ b) := by
  have hT : (buf.take pos).length = pos := by
    rw [List.length_take]
    omega
  have hTA : (buf.take pos ++ a).length = pos + a.length := by
    rw [List.length_append, hT]
  unfold writeSeg
  rw [List.take_append_eq_append_take, List.drop_append_eq_append_drop, hTA]
  rw [List.take_of_length_le (le_of_eq hTA), Nat.sub_self, List.take_zero, List.append_nil]
  rw [List.drop_eq_nil_of_le (by omega : (buf.take pos ++ a).length ≤ pos + a.length + b.length)]
  rw [List.nil_append]
  have h1 : pos + a.length + b.length - (pos + a.length) = b.length := by omega
  rw [h1, List.drop_drop]
  rw [List.length_append]
  have h2 : pos + a.length + b.length = pos + (a.length + b.length) := by omega
  rw [h2]
  simp [List.append_assoc]

/-- Characterization of the drain loop's output buffer: starting from an
in-bounds write position, the loop writes exactly the first
`required - got` samples of the concatenated queue at position `got`. -/
lemma playLoop_fst (required : Nat) :
    ∀ (q : List (List Int)) (got : Nat) (outBuf : List Int),
      got ≤ required → outBuf.length = required →
      (playLoop required q got outBuf).1
        = writeSeg outBuf got (q.flatten.take (required - got)) := by
  intro q
  induction q with
  | nil =>
    intro got outBuf h1 h2
    simp [playLoop, writeSeg_nil]
  | cons chunk rest ih =>
    intro got outBuf h1 h2
    by_cases hlt : got < required
    · by_cases hcopy : min chunk.length (required - got) < chunk.length
      · have hc2 : required - got < chunk.length := by omega
        have htc : min chunk.length (required - got) = required - got := by omega
        simp only [playLoop, if_pos hlt, htc, if_pos hc2]
        rw [List.flatten_cons, List.take_append_eq_append_take,
          show required - got - chunk.length = 0 by omega, List.take_zero, List.append_nil]
      · have htc : min chunk.length (required - got) = chunk.length := by omega
        have hle : chunk.length ≤ required - got := by omega
        simp only [playLoop, if_pos hlt, htc, List.take_length,
          if_neg (lt_irrefl chunk.length)]
        rw [ih (got + chunk.length) (writeSeg outBuf got chunk) (by omega)
            (by rw [writeSeg_length outBuf chunk got (by omega)]; exact h2)]
        rw [writeSeg_append outBuf got chunk _ (by omega)]
        rw [List.flatten_cons, List.take_append_eq_append_take,
          List.take_of_length_le (by omega : chunk.length ≤ required - got)]
        have harith : required - got - chunk.length = required - (got + chunk.length) := by
          omega
        rw [harith]
    · have hge : got = required := by omega
      simp only [playLoop, if_neg hlt]
      rw [hge, Nat.sub_self, List.take_zero, writeSeg_nil]

/-- Reduction of the guarded playback callback to the drain loop. -/
lemma audio_playback_callback_eq (frames channels : Nat) (q : List (List Int)) :
    audio_playback_callback frames channels q
      = playLoop (frames * channels) q 0 (List.replicate (frames * channels) 0) := rfl

/-- Output of the playback callback: the first `frames * channels`
samples of the concatenated queue, zero-padded to the full length. -/
lemma playback_fst_char (frames channels : Nat) (q : List (List Int)) :
    (audio_playback_callback frames channels q).1
      = (q.flatten ++ List.replicate (frames * channels) 0).take (frames * channels) := by
  rw [audio_playback_callback_eq]
  rw [playLoop_fst (frames * channels) q 0 (List.replicate (frames * channels) 0)
    (Nat.zero_le _) (by simp)]
  unfold writeSeg
  simp only [List.take_zero, List.nil_append, Nat.sub_zero, List.length_take,
    List.length_replicate, Nat.zero_add, List.drop_replicate]
  rw [List.take_append_eq_append_take, List.take_replicate]
  have hcnt : frames * channels - frames * channels ⊓ q.flatten.length
      = (frames * channels - q.flatten.length) ⊓ (frames * channels) := by omega
  rw [hcnt]

/-- C1: every playback callback fills an output buffer of exactly
`frames * channels` samples with the queued samples in FIFO order up to
that length and zeroes beyond them; an empty queue yields pure silence,
and a single 512-sample chunk against a 1024-sample mono request yields
the chunk followed by 512 zeros. -/
theorem c1_playback_output_invariant :
    (∀ (frames channels : Nat) (q : List (List Int)),
      ((audio_playback_callback frames channels q).1).length = frames * channels
      ∧ (audio_playback_callback frames channels q).1
          = (q.flatten ++ List.replicate (frames * channels) 0).take (frames * channels))
    ∧ (∀ frames channels : Nat,
      (audio_playback_callback frames channels []).1
        = List.replicate (frames * channels) 0)
    ∧ (∀ x : Int,
      (audio_playback_callback 1024 1 [List.replicate 512 x]).1
        = List.replicate 512 x ++ List.replicate 512 0) := by
  refine ⟨fun frames channels q => ⟨?_, playback_fst_char frames channels q⟩, ?_, ?_⟩
  · rw [playback_fst_char]
    simp only [List.length_take, List.length_append, List.length_replicate]
    omega
  · intro frames channels
    rw [playback_fst_char]
    simp
  · intro x
    rw [playback_fst_char]
    rw [List.flatten_cons, List.flatten_nil, List.append_nil]
    rw [List.take_append_eq_append_take, List.take_replicate, List.take_replicate,
      List.length_replicate]
    norm_num

/-- Tail re-insertion step of the drain loop: a popped chunk larger than
the remaining space has its remainder appended at the back of the queue
(dropped if the queue is at capacity). -/
lemma playLoop_overflow (required : Nat) (chunk : List Int) (rest : List (List Int))
    (got : Nat) (outBuf : List Int) (hlt : got < required)
    (hrem : required - got < chunk.length) :
    (playLoop required (chunk :: rest) got outBuf).2
      = put_nowait_drop PLAY_Q_MAX rest (chunk.drop (required - got)) := by
  have htc : min chunk.length (required - got) = required - got := by omega
  simp only [playLoop, if_pos hlt, htc, if_pos hrem]

/-- A queue holding a single 2000-sample chunk against a 1024-sample mono
request leaves exactly the 976-sample remainder queued. -/
lemma playback_2000_case (x : Int) :
    (audio_playback_callback 1024 1 [List.replicate 2000 x]).2
      = [List.replicate 976 x] := by
  rw [audio_playback_callback_eq]
  rw [playLoop_overflow (1024 * 1) (List.replicate 2000 x) [] 0
    (List.replicate (1024 * 1) 0) (by norm_num)
    (by rw [List.length_replicate]; norm_num)]
  rw [List.drop_replicate]
  unfold put_nowait_drop
  norm_num [PLAY_Q_MAX]

/-- C2 counterexample: the remainder is NOT re-inserted at the front.
With queue `[[1,2,3],[9]]` and a 2-sample request, the remainder `[3]`
ends up behind the already-queued chunk `[9]`, and the next callback
plays `9` before `3`. -/
theorem c2_counterexample_front_requeue :
    (audio_playback_callback 2 1 [[1, 2, 3], [9]]).2 = [[9], [3]]
    ∧ (audio_playback_callback 2 1
        ((audio_playback_callback 2 1 [[1, 2, 3], [9]]).2)).1 = [9, 3]
    ∧ ([[9], [3]] : List (List Int)) ≠ [[3], [9]] := by decide

/-- C2 (amended): when the popped chunk has leftover samples beyond what
fit, the remainder is re-inserted at the BACK of the queue with a
non-blocking put (so it is consumed after any chunks that were already
queued, and discarded silently if the queue is at capacity); when no
other chunk is queued it is the first chunk consumed by the next
callback, e.g. a 2000-sample chunk against a 1024-sample request leaves
a 976-sample remainder that the next callback plays first. -/
theorem c2_remainder_requeued_at_tail :
    (∀ (required : Nat) (chunk : List Int) (rest : List (List Int))
      (got : Nat) (outBuf : List Int),
      got < required → required - got < chunk.length →
      (playLoop required (chunk :: rest) got outBuf).2
        = put_nowait_drop PLAY_Q_MAX rest (chunk.drop (required - got)))
    ∧ (∀ x : Int, (audio_playback_callback 1024 1 [List.replicate 2000 x]).2
        = [List.replicate 976 x])
    ∧ (∀ x : Int,
      (audio_playback_callback 1024 1
        ((audio_playback_callback 1024 1 [List.replicate 2000 x]).2)).1
          = List.replicate 976 x ++ List.replicate 48 0) := by
  refine ⟨fun required chunk rest got outBuf hlt hrem =>
    playLoop_overflow required chunk rest got outBuf hlt hrem,
    fun x => playback_2000_case x, fun x => ?_⟩
  rw [playback_2000_case, playback_fst_char]
  rw [List.flatten_cons, List.flatten_nil, List.append_nil]
  rw [List.take_append_eq_append_take, List.take_replicate, List.take_replicate,
    List.length_replicate]
  norm_num

/-- Witness for C2's loop-level property at a concrete overflowing chunk. -/
theorem c2_witness :
    ((0 : Nat) < 2 ∧ 2 - 0 < ([1, 2, 3] : List Int).length)
    ∧ (playLoop 2 [[1, 2, 3]] 0 [0, 0]).2
        = put_nowait_drop PLAY_Q_MAX [] (([1, 2, 3] : List Int).drop (2 - 0)) :=
  ⟨⟨by decide, by decide⟩,
   c2_remainder_requeued_at_tail.1 2 [1, 2, 3] [] 0 [0, 0] (by decide) (by decide)⟩
